import Mathlib

set_option maxRecDepth 8000

/-!
Verification of the record-reconciliation pipeline of `upr-report-mapping.py`:
schema matching, row filtering, grouping/consolidation, archive deduplication
and the archive write path, shallowly embedded in Lean. Python datetimes are
modelled as natural numbers of seconds since 0000-03-01 00:00, floats as
rationals, and fallible operations as `Option`.
-/

namespace UPR

/-- A Python cell value as the script sees it: `None`, a string, or a number
(floats are modelled as rationals). -/
inductive Value where
  | none : Value
  | str : String → Value
  | num : Rat → Value
deriving DecidableEq

/-- A row is a Python dict keyed by column title: an association list from
column name to value (first binding wins, as dict keys are unique). -/
abbrev Row := List (String × Value)

/-- Python `dict.get(key, default)`: the value bound to the key, else the
default (a key bound to `None` yields `None`, not the default). -/
def getD : Row → String → Value → Value
  | [], _, d => d
  | (k, v) :: rest, key, d => if k = key then v else getD rest key d

/-- Python truthiness of a cell value: `None`, `''` and `0` are falsy. -/
def isTruthy : Value → Bool
  | Value.none => false
  | Value.str s => decide (s ≠ "")
  | Value.num q => decide (q ≠ 0)

/-- The natural number denoted by a list of decimal digit characters. -/
def natFromDigits (cs : List Char) : Nat :=
  cs.foldl (fun n c => n * 10 + (c.toNat - 48)) 0

/-- Python `float(str)` restricted to plain decimal literals: optional sign,
digits, optional single fractional part. Scientific notation, surrounding
whitespace, `inf` and `nan` are outside the model and fail to parse; no
claim depends on those forms. -/
def parseDecimal (s : String) : Option Rat :=
  let isNeg := match s.data with
    | '-' :: _ => true
    | _ => false
  let body := match s.data with
    | '-' :: rest => rest
    | '+' :: rest => rest
    | cs => cs
  let signed : Rat → Rat := fun q => if isNeg then -q else q
  let intPart := body.takeWhile Char.isDigit
  let rest := body.dropWhile Char.isDigit
  match rest with
  | [] =>
    if intPart.isEmpty then Option.none
    else some (signed (natFromDigits intPart : Rat))
  | '.' :: frac =>
    if frac.all Char.isDigit && !(intPart.isEmpty && frac.isEmpty) then
      some (signed ((natFromDigits intPart : Rat)
        + (natFromDigits frac : Rat) / ((10 : Rat) ^ frac.length)))
    else Option.none
  | _ => Option.none

/-- Python `float(v)` on a cell value: numbers convert to themselves, strings
are parsed, `None` raises (modelled as parse failure, caught by the script's
bare `except`). -/
def pyFloat : Value → Option Rat
  | Value.num q => some q
  | Value.str s => parseDecimal s
  | Value.none => Option.none

/-- Days from 0000-03-01 to the given civil date (`y ≥ 1`, `1 ≤ m ≤ 12`,
`1 ≤ d`): the standard era / year-of-era computation, used to model Python
date values. 0000-03-01 is a Wednesday. -/
def daysFromCivil (y m d : Nat) : Nat :=
  let yAdj := if m ≤ 2 then y - 1 else y
  let era := yAdj / 400
  let yoe := yAdj - era * 400
  let mp := (m + 9) % 12
  let doy := (153 * mp + 2) / 5 + d - 1
  let doe := yoe * 365 + yoe / 4 - yoe / 100 + doy
  era * 146097 + doe

/-- `dateutil.parser.parse` restricted to ISO `YYYY-MM-DD` strings, yielding
the datetime in seconds at midnight of that day. Other textual forms are
outside the model and fail; no claim depends on them. -/
def parseISO (s : String) : Option Nat :=
  match s.data with
  | [y1, y2, y3, y4, '-', m1, m2, '-', d1, d2] =>
    if ([y1, y2, y3, y4, m1, m2, d1, d2].all Char.isDigit) then
      let y := natFromDigits [y1, y2, y3, y4]
      let m := natFromDigits [m1, m2]
      let d := natFromDigits [d1, d2]
      if 1 ≤ y && 1 ≤ m && m ≤ 12 && 1 ≤ d && d ≤ 31 then
        some (86400 * daysFromCivil y m d)
      else Option.none
    else Option.none
  | _ => Option.none

/-- `parse_date(str(v))` (line 171): only string cells can parse as dates;
`str(None) = "None"` and `str(<float>)` never look like dates, so they fail
just as in the script. -/
def pyParseDate : Value → Option Nat
  | Value.str s => parseISO s
  | _ => Option.none

/-- Python `datetime.weekday()`: Monday = 0 … Sunday = 6. The epoch
0000-03-01 is a Wednesday (= 2). -/
def weekday (t : Nat) : Nat := (t / 86400 + 2) % 7

/-- `week_start` (lines 154-163): subtract `(weekday + 1) % 7` whole days,
keeping the time of day of the input instant. -/
def weekStart (t : Nat) : Nat := t - 86400 * ((weekday t + 1) % 7)

/-- Modelled from the spec's words, for comparison with `weekStart` only:
the most recent Sunday at or before the instant, truncated to 00:00. -/
def weekStartAtMidnight (t : Nat) : Nat :=
  86400 * (t / 86400 - (weekday t + 1) % 7)

/-- `is_past_week` (lines 165-176): falsy input fails, unparseable input
fails, otherwise compare strictly against `week_start(now)`. -/
def isPastWeek (now : Nat) (v : Value) : Bool :=
  if !isTruthy v then false
  else
    match pyParseDate v with
    | some t => decide (t < weekStart now)
    | Option.none => false

/-- `COLUMN_MAP` (lines 17-32): destination column to source column; the
empty source string marks the intentionally blank destination column. -/
def COLUMN_MAP : List (String × String) :=
  [("PROMAX", "Units Total Price"),
   ("Job Number", "Job #"),
   ("Work Order", "Work Order"),
   ("Work Release", "Work Release #"),
   ("Start Date", "Start Date"),
   ("Scope Number", "Scope Number"),
   ("Foreman", "Foreman"),
   ("Location", "Location"),
   ("Crew", "Crew"),
   ("% of Completion", "% of Completion"),
   ("Weekly Reference Logged Date", "Weekly Reference Logged Date"),
   ("Expected Time of Completion", ""),
   ("Snapshot Date", "Snapshot Date"),
   ("Work Request #", "Work Request #")]

/-- The per-row filter of the main loop (lines 220-246): skip when
`promax_val` is falsy or the date is not in a past week, then skip when
`float(promax_val)` is zero or raises. `"Units Total Price"` is
`COLUMN_MAP['PROMAX']` and `"Weekly Reference Logged Date"` is
`COLUMN_MAP['Weekly Reference Logged Date']`. -/
def rowKeep (now : Nat) (row : Row) : Bool :=
  let promaxVal := getD row "Units Total Price" Value.none
  let weekEnding := getD row "Weekly Reference Logged Date" Value.none
  if !isTruthy promaxVal then false
  else if !isPastWeek now weekEnding then false
  else
    match pyFloat promaxVal with
    | some q => decide (q ≠ 0)
    | Option.none => false

/-- The output-row projection (lines 248-252):
`out_row[dest] = row.get(src, '') if src else ''`. -/
def projectRow (row : Row) : Row :=
  COLUMN_MAP.map (fun p => (p.1, if p.2 = "" then Value.str "" else getD row p.2 (Value.str "")))

/-- `unique_key_cols` (line 287). -/
def uniqueKeyCols : List String := ["Job Number", "Foreman", "Work Release"]

/-- The grouping key of a consolidated-input row (line 293):
`tuple(rec.get(col, None) for col in unique_key_cols)`. -/
def groupKey (r : Row) : List Value :=
  uniqueKeyCols.map (fun c => getD r c Value.none)

/-- The distinct group keys in order of first occurrence, as iterating the
insertion-ordered `grouped_records` dict does (lines 291-296). -/
def distinctKeys (rows : List Row) : List (List Value) :=
  rows.foldl (fun acc r => if groupKey r ∈ acc then acc else acc ++ [groupKey r]) []

/-- The key used to pick the "latest" member (line 311):
`x.get('Weekly Reference Logged Date', '')`. -/
def dateKey (r : Row) : Value := getD r "Weekly Reference Logged Date" (Value.str "")

/-- Lexicographic strictly-less on character lists by code point, the order
Python uses to compare strings; written structurally so it evaluates. -/
def strLtCharList : List Char → List Char → Bool
  | [], [] => false
  | [], _ :: _ => true
  | _ :: _, [] => false
  | a :: as, b :: bs => if a < b then true else if b < a then false else strLtCharList as bs

/-- Python `a < b` on strings: code-point lexicographic comparison. -/
def strLt (a b : String) : Bool := strLtCharList a.data b.data

/-- Python `a > b` on cell values: defined for two strings (code-point
lexicographic) or two numbers; comparing anything else raises `TypeError`
(modelled as `Option.none`). -/
def pyGtV : Value → Value → Option Bool
  | Value.str a, Value.str b => some (strLt b a)
  | Value.num a, Value.num b => some (decide (b < a))
  | _, _ => Option.none

/-- One step of Python `max(..., key=...)`: replace the current maximum only
when the new item's key is strictly greater, so ties keep the earlier item. -/
def pyMaxStep (key : Row → Value) (acc : Option Row) (r : Row) : Option Row :=
  match acc with
  | Option.none => Option.none
  | some m =>
    match pyGtV (key r) (key m) with
    | some true => some r
    | some false => some m
    | Option.none => Option.none

/-- Python `max(group, key=...)` (line 311): empty input raises; otherwise a
left fold starting from the first element. -/
def pyMaxBy (key : Row → Value) : List Row → Option Row
  | [] => Option.none
  | x :: xs => xs.foldl (pyMaxStep key) (some x)

/-- `sum(float(r.get('PROMAX', 0)) for r in group_records if r.get('PROMAX'))`
(line 308): falsy `PROMAX` values are skipped, a truthy unparseable value
raises (`Option.none`). Addition is regrouped to the right, which is
identical for rationals. -/
def sumPromax : List Row → Option Rat
  | [] => some 0
  | r :: rs =>
    if isTruthy (getD r "PROMAX" Value.none) then
      match pyFloat (getD r "PROMAX" (Value.num 0)) with
      | some q => (sumPromax rs).map (fun s => q + s)
      | Option.none => Option.none
    else sumPromax rs

/-- What one group member adds to the group's PROMAX total: its parsed value
when its `PROMAX` is truthy, and 0 when it is missing or falsy. -/
def promaxContribution (r : Row) : Rat :=
  if isTruthy (getD r "PROMAX" Value.none) then
    (pyFloat (getD r "PROMAX" (Value.num 0))).getD 0
  else 0

/-- The consolidated-record dict literal (lines 314-329): the summed total,
the three key components, and every other field copied from the selected
latest member. -/
def consRecordOf (totalPromax : Rat) (jobNum foreman workRelease : Value) (latest : Row) : Row :=
  [("PROMAX", Value.num totalPromax),
   ("Job Number", jobNum),
   ("Foreman", foreman),
   ("Work Release", workRelease),
   ("Work Order", getD latest "Work Order" (Value.str "")),
   ("Start Date", getD latest "Start Date" (Value.str "")),
   ("Scope Number", getD latest "Scope Number" (Value.str "")),
   ("Location", getD latest "Location" (Value.str "")),
   ("Crew", getD latest "Crew" (Value.str "")),
   ("% of Completion", getD latest "% of Completion" (Value.str "")),
   ("Weekly Reference Logged Date", getD latest "Weekly Reference Logged Date" (Value.str "")),
   ("Expected Time of Completion", getD latest "Expected Time of Completion" (Value.str "")),
   ("Snapshot Date", getD latest "Snapshot Date" (Value.str "")),
   ("Work Request #", getD latest "Work Request #" (Value.str ""))]

/-- One iteration of the consolidation loop (lines 304-331): destructure the
key into its three components, sum `PROMAX`, select the latest member, build
the record. A key of another shape, an empty group or a raising sum cannot
arise in the pipeline and yield `Option.none`. -/
def consolidateGroup (key : List Value) (group : List Row) : Option Row :=
  match key, sumPromax group, pyMaxBy dateKey group with
  | [jobNum, foreman, workRelease], some total, some latest =>
    some (consRecordOf total jobNum foreman workRelease latest)
  | _, _, _ => Option.none

/-- The whole consolidation step (lines 291-331): group by key in first
occurrence order and consolidate each group. -/
def consolidate (rows : List Row) : Option (List Row) :=
  (distinctKeys rows).mapM
    (fun k => consolidateGroup k (rows.filter (fun r => decide (groupKey r = k))))

/-- `archive_col_mapping` (lines 108-111 and 412-415). -/
def archiveColMapping : List (String × String) :=
  [("Work Request #", "Work Request"), ("Work Release", "Work Release #")]

/-- `archive_col_mapping.get(col, col)`: the archive-side name of a
destination column, the identity when unmapped. -/
def remapArchive (c : String) : String :=
  match archiveColMapping.lookup c with
  | some a => a
  | Option.none => c

/-- The archive sheet as read: its column titles and its rows. Each row is
keyed by column title (the column-id indirection of the API is a bijection
with titles and is dropped). -/
structure Archive where
  cols : List String
  rows : List Row

/-- `available_cols` (lines 114-121): the unique-key columns whose
archive-side name exists in the archive schema, in original order. -/
def availableCols (cols : List String) (ukc : List String) : List String :=
  ukc.foldl (fun acc c => if remapArchive c ∈ cols then acc ++ [c] else acc) []

/-- `effective_key_cols = available_cols if available_cols else
unique_key_cols` (line 128): the available subset, unless it is empty, in
which case the full key-column list is kept. -/
def effectiveKeyCols (cols ukc : List String) : List String :=
  if availableCols cols ukc = [] then ukc else availableCols cols ukc

/-- `get_archive_existing_keys` (lines 97-152): `Option.none` stands for an
exception while reading the archive, handled by the function's own `except`
branch which returns the empty key set and the unchanged key columns. On
success, each archive row is projected through the effective key columns
(an absent archive-side column contributes `None`, lines 137-141). The
Python `set` of tuples is modelled as the list of key tuples; only
membership in it is ever used. -/
def getArchiveExistingKeys (archive : Option Archive) (ukc : List String) :
    List (List Value) × List String :=
  match archive with
  | Option.none => ([], ukc)
  | some sheet =>
    let eff := effectiveKeyCols sheet.cols ukc
    (sheet.rows.map (fun row =>
        eff.map (fun c =>
          if remapArchive c ∈ sheet.cols then getD row (remapArchive c) Value.none
          else Value.none)),
     eff)

/-- A consolidated record's key projected through the effective key columns
(line 357): `tuple(rec.get(col, None) for col in effective_key_cols)`. -/
def projKey (eff : List String) (rec : Row) : List Value :=
  eff.map (fun c => getD rec c Value.none)

/-- The deduplication loop (lines 356-361): keep exactly the records whose
projected key is not among the existing archive keys. -/
def dedupNewRows (consolidated : List Row) (keys : List (List Value)) (eff : List String) :
    List Row :=
  consolidated.filter (fun rec => !decide (projKey eff rec ∈ keys))

/-- Modelled from the claim's words, for comparison with `effectiveKeyCols`
only: exactly those key columns whose remapped archive-side name exists in
the archive schema, with no fallback. -/
def effectiveKeyColsClaim (cols ukc : List String) : List String :=
  ukc.filter (fun c => decide (remapArchive c ∈ cols))

/-- Modelled from the claim's words, for comparison only: archive key tuples
built through `effectiveKeyColsClaim`. -/
def archiveKeysClaim (a : Archive) (ukc : List String) : List (List Value) :=
  a.rows.map (fun row =>
    (effectiveKeyColsClaim a.cols ukc).map (fun c => getD row (remapArchive c) Value.none))

/-- One enumerated sheet as the schema matcher sees it: `Option.none` for a
schema whose read raised (the `except` branch of lines 76-78). -/
structure SheetInfo where
  sheetId : Nat
  name : String
  schema : Option (List String)
deriving DecidableEq

/-- `get_matching_sheets` (lines 64-79): keep the sheets whose column set is
a superset of the reference columns; a sheet whose schema read raised is
skipped and the loop continues. -/
def getMatchingSheets (refCols : List String) (sheets : List SheetInfo) : List SheetInfo :=
  sheets.filter (fun s =>
    match s.schema with
    | some cs => refCols.all (fun c => decide (c ∈ cs))
    | Option.none => false)

/-- The live write path's cell construction for one record (lines 428-436):
emit a cell only for a truthy value whose remapped archive column exists;
the cell is modelled as (archive column title, value), the title-to-id
lookup being a bijection. -/
def buildCells (cols : List String) : Row → List (String × Value)
  | [] => []
  | cv :: rest =>
    if isTruthy cv.2 then
      if remapArchive cv.1 ∈ cols then (remapArchive cv.1, cv.2) :: buildCells cols rest
      else buildCells cols rest
    else buildCells cols rest

/-- How a run of `main` ends, from the filtering step onward. -/
inductive RunOutcome where
  | noRecords : RunOutcome
  | consolidationError : RunOutcome
  | unboundLocalCrash : RunOutcome
  | proceed : List Row → RunOutcome
deriving DecidableEq

/-- The filtering loop over all matched sheets (lines 214-260): a sheet
whose row read raised (`Option.none`) is skipped, the rest contribute their
filtered, projected rows in order. -/
def filteredRecords (now : Nat) (sources : List (Option (List Row))) : List Row :=
  sources.foldr
    (fun src acc =>
      match src with
      | Option.none => acc
      | some rows => ((rows.filter (rowKeep now)).map projectRow) ++ acc)
    []

/-- `main` from filtering to the write decision (lines 214-388). When no
record passes filtering the run returns before any archive access (lines
269-271). Otherwise records are consolidated and deduplicated; `new_rows`
is assigned only inside `if new_consolidated_rows:` (lines 368-377), so
when deduplication succeeds with zero new records the later
`if not new_rows:` (line 386) raises `UnboundLocalError`, modelled as
`unboundLocalCrash`. Nonempty new records proceed to the write step. -/
def runMain (now : Nat) (sources : List (Option (List Row))) (archive : Option Archive) :
    RunOutcome :=
  let records := filteredRecords now sources
  if records.isEmpty then RunOutcome.noRecords
  else
    match consolidate records with
    | Option.none => RunOutcome.consolidationError
    | some cons =>
      let pr := getArchiveExistingKeys archive uniqueKeyCols
      let nw := dedupNewRows cons pr.1 pr.2
      if nw.isEmpty then RunOutcome.unboundLocalCrash else RunOutcome.proceed nw

/-- 2024-01-10 (a Wednesday) at 12:00, a concrete "now" for witnesses. -/
def nowWed : Nat := 86400 * daysFromCivil 2024 1 10 + 43200

/-- A source row with a negative monetary value and a past-week date. -/
def negRow : Row :=
  [("Units Total Price", Value.num (-5)),
   ("Weekly Reference Logged Date", Value.str "2024-01-03")]

/-- A source row matching the spec's worked scenario. -/
def srcRowJ1 : Row :=
  [("Units Total Price", Value.num 150),
   ("Job #", Value.str "J1"),
   ("Foreman", Value.str "A"),
   ("Work Release #", Value.str "WR1"),
   ("Weekly Reference Logged Date", Value.str "2024-01-03")]

/-- An archive already holding the Group Key (J1, A, WR1) under the
archive-side column names. -/
def archiveJ1 : Archive :=
  ⟨["Job Number", "Foreman", "Work Release #", "Work Request", "PROMAX"],
   [[("Job Number", Value.str "J1"),
     ("Foreman", Value.str "A"),
     ("Work Release #", Value.str "WR1")]]⟩

/-- An archive schema containing none of the key columns. -/
def archiveNoKeyCols : Archive := ⟨["X"], [[("X", Value.str "v")]]⟩

/-- A consolidated record with the Group Key (J1, A, WR1). -/
def recJ1 : Row :=
  [("Job Number", Value.str "J1"),
   ("Foreman", Value.str "A"),
   ("Work Release", Value.str "WR1")]

/-- A projected group member: PROMAX 100, earlier reference date. -/
def rowA : Row :=
  [("PROMAX", Value.num 100),
   ("Weekly Reference Logged Date", Value.str "2024-01-01"),
   ("Crew", Value.str "C1")]

/-- A projected group member: PROMAX 50, later reference date. -/
def rowB : Row :=
  [("PROMAX", Value.num 50),
   ("Weekly Reference Logged Date", Value.str "2024-01-05"),
   ("Crew", Value.str "C2")]

/-- A sheet whose schema is a strict superset of the reference columns. -/
def sheetGood : SheetInfo := ⟨1, "S", some ["A", "B", "C"]⟩

/-- The string carried by a string cell value, `""` otherwise. -/
def strOf : Value → String
  | Value.str s => s
  | _ => ""

/-- The accumulating loop building `available_cols` collects exactly the key
columns whose archive-side name exists. -/
theorem availableCols_eq_filter (cols ukc : List String) :
    availableCols cols ukc = ukc.filter (fun c => decide (remapArchive c ∈ cols)) := by
  have aux : ∀ (l acc : List String),
      l.foldl (fun acc c => if remapArchive c ∈ cols then acc ++ [c] else acc) acc
        = acc ++ l.filter (fun c => decide (remapArchive c ∈ cols)) := by
    intro l
    induction l with
    | nil => intro acc; simp
    | cons c cs ih =>
      intro acc
      by_cases h : remapArchive c ∈ cols
      · simp [h, ih, List.filter_cons]
      · simp [h, ih, List.filter_cons]
  simpa [availableCols] using aux ukc []

/-- When every member whose `PROMAX` is truthy also has a parseable `PROMAX`,
the group sum succeeds and equals the sum of the members' contributions. -/
theorem sumPromax_eq_sum (l : List Row)
    (hp : ∀ r ∈ l, isTruthy (getD r "PROMAX" Value.none) = true →
      (pyFloat (getD r "PROMAX" (Value.num 0))).isSome = true) :
    sumPromax l = some ((l.map promaxContribution).sum) := by
  induction l with
  | nil => simp [sumPromax]
  | cons r rs ih =>
    have hrest : ∀ x ∈ rs, isTruthy (getD x "PROMAX" Value.none) = true →
        (pyFloat (getD x "PROMAX" (Value.num 0))).isSome = true :=
      fun x hx => hp x (List.mem_cons_of_mem r hx)
    by_cases ht : isTruthy (getD r "PROMAX" Value.none) = true
    · obtain ⟨q, hq⟩ := Option.isSome_iff_exists.mp (hp r (List.mem_cons_self r rs) ht)
      simp [sumPromax, ht, hq, ih hrest, promaxContribution]
    · have ht' : isTruthy (getD r "PROMAX" Value.none) = false :=
        Bool.not_eq_true _ ▸ Bool.eq_false_iff.mpr ht
      simp [sumPromax, ht', ih hrest, promaxContribution]

/-- The structural character-list comparison agrees with the lexicographic
list order. -/
theorem strLtCharList_iff_lt : ∀ as bs : List Char, strLtCharList as bs = true ↔ as < bs := by
  intro as
  induction as with
  | nil =>
    intro bs
    cases bs with
    | nil =>
      simp only [strLtCharList]
      exact ⟨fun h => by simp at h, fun h => by cases h⟩
    | cons b bs => exact ⟨fun _ => List.Lex.nil, fun _ => rfl⟩
  | cons a as ih =>
    intro bs
    cases bs with
    | nil =>
      simp only [strLtCharList]
      exact ⟨fun h => by simp at h, fun h => by cases h⟩
    | cons b bs =>
      by_cases h1 : a < b
      · simp only [strLtCharList, if_pos h1]
        exact ⟨fun _ => List.Lex.rel h1, fun _ => trivial⟩
      · by_cases h2 : b < a
        · simp only [strLtCharList, if_neg h1, if_pos h2]
          constructor
          · intro h; simp at h
          · intro h
            cases h with
            | rel hab => exact absurd hab h1
            | cons _ => exact absurd h2 (lt_irrefl a)
        · have hab : a = b := le_antisymm (not_lt.mp h2) (not_lt.mp h1)
          subst hab
          simp only [strLtCharList, if_neg h1, if_neg h2]
          rw [ih bs]
          constructor
          · intro h; exact List.Lex.cons h
          · intro h
            cases h with
            | rel hab => exact absurd hab h1
            | cons htl => exact htl

/-- The structural string comparison agrees with the string order. -/
theorem strLt_iff_lt (a b : String) : strLt a b = true ↔ a < b := by
  rw [String.lt_iff_toList_lt]
  exact strLtCharList_iff_lt a.data b.data

/-- Folding `pyMaxStep` over rows whose keys are all strings never raises and
returns a member whose key is maximal under the string order (ties keep the
earlier element, as in Python `max`). -/
theorem pyMaxFold_spec (key : Row → Value) (xs : List Row) :
    ∀ m0 : Row, (∀ r ∈ xs, ∃ s, key r = Value.str s) → (∃ t, key m0 = Value.str t) →
      ∃ m, xs.foldl (pyMaxStep key) (some m0) = some m ∧ (m = m0 ∨ m ∈ xs) ∧
        strOf (key m0) ≤ strOf (key m) ∧ ∀ y ∈ xs, strOf (key y) ≤ strOf (key m) := by
  induction xs with
  | nil =>
    intro m0 _ _
    exact ⟨m0, rfl, Or.inl rfl, le_refl _, by simp⟩
  | cons r rs ih =>
    intro m0 hall hm0
    obtain ⟨s, hs⟩ := hall r (List.mem_cons_self r rs)
    obtain ⟨t, ht⟩ := hm0
    have hrest : ∀ x ∈ rs, ∃ u, key x = Value.str u :=
      fun x hx => hall x (List.mem_cons_of_mem r hx)
    have hstep : pyMaxStep key (some m0) r = if t < s then some r else some m0 := by
      simp only [pyMaxStep, pyGtV, hs, ht]
      by_cases hlt : t < s
      · rw [if_pos hlt, (strLt_iff_lt t s).mpr hlt]
      · rw [if_neg hlt,
          Bool.eq_false_iff.mpr (fun hc => hlt ((strLt_iff_lt t s).mp hc))]
    rw [List.foldl_cons, hstep]
    by_cases hlt : t < s
    · rw [if_pos hlt]
      obtain ⟨m, hfold, hmem, hle, hmax⟩ := ih r hrest ⟨s, hs⟩
      refine ⟨m, hfold, ?_, ?_, ?_⟩
      · rcases hmem with h | h
        · exact Or.inr (h ▸ List.mem_cons_self r rs)
        · exact Or.inr (List.mem_cons_of_mem r h)
      · calc strOf (key m0) = t := by rw [ht]; rfl
          _ ≤ s := le_of_lt hlt
          _ = strOf (key r) := by rw [hs]; rfl
          _ ≤ strOf (key m) := hle
      · intro y hy
        rcases List.mem_cons.mp hy with rfl | hy'
        · exact hle
        · exact hmax y hy'
    · rw [if_neg hlt]
      obtain ⟨m, hfold, hmem, hle, hmax⟩ := ih m0 hrest ⟨t, ht⟩
      refine ⟨m, hfold, ?_, hle, ?_⟩
      · rcases hmem with h | h
        · exact Or.inl h
        · exact Or.inr (List.mem_cons_of_mem r h)
      · intro y hy
        rcases List.mem_cons.mp hy with rfl | hy'
        · calc strOf (key y) = s := by rw [hs]; rfl
            _ ≤ t := le_of_not_lt hlt
            _ = strOf (key m0) := by rw [ht]; rfl
            _ ≤ strOf (key m) := hle
        · exact hmax y hy'

/-- Python `max` over a nonempty row list keyed by all-string values returns
a member whose key is maximal under the string order. -/
theorem pyMaxBy_maximal (key : Row → Value) (x : Row) (xs : List Row)
    (h : ∀ r ∈ x :: xs, ∃ s, key r = Value.str s) :
    ∃ m, pyMaxBy key (x :: xs) = some m ∧ m ∈ x :: xs ∧
      ∀ y ∈ x :: xs, strOf (key y) ≤ strOf (key m) := by
  obtain ⟨m, hfold, hmem, hle, hmax⟩ :=
    pyMaxFold_spec key xs x (fun r hr => h r (List.mem_cons_of_mem x hr))
      (h x (List.mem_cons_self x xs))
  refine ⟨m, hfold, ?_, ?_⟩
  · rcases hmem with hmm | hmm
    · exact hmm ▸ List.mem_cons_self x xs
    · exact List.mem_cons_of_mem x hmm
  · intro y hy
    rcases List.mem_cons.mp hy with rfl | hy'
    · exact hle
    · exact hmax y hy'

/-- The write path's cell loop is the filter of truthy, archive-mappable
fields, renamed to archive-side column names. -/
theorem buildCells_eq_filterMap (cols : List String) (rec : Row) :
    buildCells cols rec
      = (rec.filter (fun cv => isTruthy cv.2 && decide (remapArchive cv.1 ∈ cols))).map
          (fun cv => (remapArchive cv.1, cv.2)) := by
  induction rec with
  | nil => rfl
  | cons p rest ih =>
    by_cases ht : isTruthy p.2 <;> by_cases hm : remapArchive p.1 ∈ cols <;>
      simp [buildCells, List.filter_cons, ht, hm, ih]

/-- C1: deduplication is idempotent at Group Key granularity. For every list
of consolidated records and every archive whose existing-key set already
contains the effective-key projection of each record, the deduplication step
retains zero records as new. -/
theorem c1_dedup_idempotent (a : Archive) (recs : List Row)
    (h : ∀ rec ∈ recs,
      projKey (getArchiveExistingKeys (some a) uniqueKeyCols).2 rec
        ∈ (getArchiveExistingKeys (some a) uniqueKeyCols).1) :
    dedupNewRows recs (getArchiveExistingKeys (some a) uniqueKeyCols).1
      (getArchiveExistingKeys (some a) uniqueKeyCols).2 = [] := by
  refine List.filter_eq_nil_iff.mpr ?_
  intro rec hrec
  simp [h rec hrec]

/-- Witness for C1: an archive holding the key (J1, A, WR1) and one
consolidated record with that key; nothing is retained. -/
theorem c1_dedup_idempotent_witness :
    dedupNewRows [recJ1] (getArchiveExistingKeys (some archiveJ1) uniqueKeyCols).1
      (getArchiveExistingKeys (some archiveJ1) uniqueKeyCols).2 = [] :=
  c1_dedup_idempotent archiveJ1 [recJ1] (by decide)

/-- C2: against the claim, the criteria filter keeps a row with a strictly
negative monetary value: the filter only rejects falsy, unparseable and
exactly-zero values, so `Units Total Price = -5` with a past-week date is
retained even though -5 is not greater than 0. -/
theorem c2_negative_promax_retained :
    rowKeep nowWed negRow = true ∧
    pyFloat (getD negRow "Units Total Price" Value.none) = some (-5) ∧
    ¬ ((0 : Rat) < -5) := by
  refine ⟨by decide, by decide, by decide⟩

/-- C3 counterexample: an archive schema with none of the key columns. The
claim's effective key (exactly the present columns, here none) would drop
the record, while the source falls back to all three key columns and
retains it. -/
theorem c3_counterexample :
    dedupNewRows [recJ1] (getArchiveExistingKeys (some archiveNoKeyCols) uniqueKeyCols).1
        (getArchiveExistingKeys (some archiveNoKeyCols) uniqueKeyCols).2 = [recJ1] ∧
    dedupNewRows [recJ1] (archiveKeysClaim archiveNoKeyCols uniqueKeyCols)
        (effectiveKeyColsClaim archiveNoKeyCols.cols uniqueKeyCols) = [] ∧
    (getArchiveExistingKeys (some archiveNoKeyCols) uniqueKeyCols).2 ≠
        effectiveKeyColsClaim archiveNoKeyCols.cols uniqueKeyCols := by
  refine ⟨by decide, by decide, by decide⟩

/-- C3 as amended: when at least one Group Key column has its remapped
archive-side name in the archive schema, the effective key columns are
exactly those columns, and a consolidated record is retained as new if and
only if its projection through them is absent from the archive key set.
(When none is present the source falls back to all three key columns.) -/
theorem c3_effective_key_dedup (a : Archive) (recs : List Row) (rec : Row)
    (hsome : ∃ c ∈ uniqueKeyCols, remapArchive c ∈ a.cols) :
    (getArchiveExistingKeys (some a) uniqueKeyCols).2
        = effectiveKeyColsClaim a.cols uniqueKeyCols ∧
    (rec ∈ dedupNewRows recs (getArchiveExistingKeys (some a) uniqueKeyCols).1
          (getArchiveExistingKeys (some a) uniqueKeyCols).2 ↔
      rec ∈ recs ∧ projKey (getArchiveExistingKeys (some a) uniqueKeyCols).2 rec ∉
          (getArchiveExistingKeys (some a) uniqueKeyCols).1) := by
  constructor
  · have havail := availableCols_eq_filter a.cols uniqueKeyCols
    have hne : availableCols a.cols uniqueKeyCols ≠ [] := by
      obtain ⟨c, hc, hmem⟩ := hsome
      rw [havail]
      intro hnil
      have hcmem : c ∈ uniqueKeyCols.filter (fun c => decide (remapArchive c ∈ a.cols)) :=
        List.mem_filter.mpr ⟨hc, by simpa using hmem⟩
      rw [hnil] at hcmem
      exact List.not_mem_nil c hcmem
    show effectiveKeyCols a.cols uniqueKeyCols = _
    rw [effectiveKeyCols, if_neg hne, havail]
    rfl
  · simp [dedupNewRows, List.mem_filter]

/-- Witness for C3's amended theorem at a concrete archive and record. -/
theorem c3_effective_key_dedup_witness :
    (∃ c ∈ uniqueKeyCols, remapArchive c ∈ archiveJ1.cols) ∧
    ((getArchiveExistingKeys (some archiveJ1) uniqueKeyCols).2
        = effectiveKeyColsClaim archiveJ1.cols uniqueKeyCols ∧
     (recJ1 ∈ dedupNewRows [recJ1] (getArchiveExistingKeys (some archiveJ1) uniqueKeyCols).1
          (getArchiveExistingKeys (some archiveJ1) uniqueKeyCols).2 ↔
       recJ1 ∈ [recJ1] ∧
         projKey (getArchiveExistingKeys (some archiveJ1) uniqueKeyCols).2 recJ1 ∉
           (getArchiveExistingKeys (some archiveJ1) uniqueKeyCols).1)) :=
  ⟨by decide, c3_effective_key_dedup archiveJ1 [recJ1] recJ1 (by decide)⟩

/-- C4: for every nonempty group of projected filtered rows (their reference
dates are strings and any truthy `PROMAX` parses, which the criteria filter
guarantees), consolidation succeeds and the record's `PROMAX` equals the sum
of the members' monetary contributions, a missing or falsy value
contributing 0. -/
theorem c4_promax_sum (j f w : Value) (x : Row) (xs : List Row)
    (hdate : ∀ r ∈ x :: xs, ∃ s, dateKey r = Value.str s)
    (hp : ∀ r ∈ x :: xs, isTruthy (getD r "PROMAX" Value.none) = true →
      (pyFloat (getD r "PROMAX" (Value.num 0))).isSome = true) :
    ∃ rec, consolidateGroup [j, f, w] (x :: xs) = some rec ∧
      getD rec "PROMAX" Value.none
        = Value.num (((x :: xs).map promaxContribution).sum) := by
  obtain ⟨m, hmax, _, _⟩ := pyMaxBy_maximal dateKey x xs hdate
  have hsum := sumPromax_eq_sum (x :: xs) hp
  refine ⟨consRecordOf (((x :: xs).map promaxContribution).sum) j f w m, ?_, ?_⟩
  · simp [consolidateGroup, hsum, hmax]
  · simp [consRecordOf, getD]

/-- Witness for C4: two rows with the same Group Key and monetary values 100
and 50 consolidate into one record whose PROMAX is their 150 total. -/
theorem c4_promax_sum_witness :
    (∃ rec, consolidateGroup [Value.str "J1", Value.str "A", Value.str "WR1"] [rowA, rowB]
        = some rec ∧
      getD rec "PROMAX" Value.none
        = Value.num (([rowA, rowB].map promaxContribution).sum)) ∧
    ([rowA, rowB].map promaxContribution).sum = 150 :=
  ⟨c4_promax_sum (Value.str "J1") (Value.str "A") (Value.str "WR1") rowA [rowB]
      (by
        intro r hr
        rcases List.mem_cons.mp hr with rfl | hr2
        · exact ⟨"2024-01-01", by decide⟩
        · rcases List.mem_cons.mp hr2 with rfl | hr3
          · exact ⟨"2024-01-05", by decide⟩
          · exact absurd hr3 (List.not_mem_nil r))
      (by decide),
   by norm_num [rowA, rowB, promaxContribution, getD, isTruthy, pyFloat]⟩

/-- C5 counterexample: at a Sunday instant with nonzero time of day (day 4 of
the epoch at 01:00), the source's week boundary is that very instant, not
the same date truncated to 00:00 as the claim states. -/
theorem c5_counterexample :
    weekday 349200 = 6 ∧ weekStart 349200 = 349200 ∧
    weekStartAtMidnight 349200 = 345600 ∧
    weekStart 349200 ≠ weekStartAtMidnight 349200 := by
  refine ⟨by decide, by decide, by decide, by decide⟩

/-- C5 as amended: for every "now" (at least one week past the epoch), the
filter's boundary is the most recent Sunday at or before now preserving
now's time of day: it is at most now, less than seven days back, falls on a
Sunday, and keeps now's seconds-within-day (so it is 00:00 only when now
itself is at 00:00). -/
theorem c5_week_boundary (t : Nat) (h : 7 * 86400 ≤ t) :
    weekStart t ≤ t ∧ t - weekStart t < 7 * 86400 ∧
    weekday (weekStart t) = 6 ∧ weekStart t % 86400 = t % 86400 := by
  unfold weekStart weekday
  omega

/-- Witness for C5's amended theorem at a concrete instant. -/
theorem c5_week_boundary_witness :
    7 * 86400 ≤ 864123 ∧
    (weekStart 864123 ≤ 864123 ∧ 864123 - weekStart 864123 < 7 * 86400 ∧
     weekday (weekStart 864123) = 6 ∧ weekStart 864123 % 86400 = 864123 % 86400) :=
  ⟨by decide, c5_week_boundary 864123 (by decide)⟩

/-- C6: for every nonempty group whose reference-date values are strings (as
projected filtered rows' are), the consolidated record is built from a
member that is maximal under raw string comparison of the
`Weekly Reference Logged Date` field: all non-summed fields are copied from
it and the key fields are the group's key components, exactly as
`consRecordOf` lays them out. -/
theorem c6_latest_member_fields (j f w : Value) (q : Rat) (x : Row) (xs : List Row)
    (hdate : ∀ r ∈ x :: xs, ∃ s, dateKey r = Value.str s)
    (hsum : sumPromax (x :: xs) = some q) :
    ∃ m ∈ x :: xs, (∀ y ∈ x :: xs, strOf (dateKey y) ≤ strOf (dateKey m)) ∧
      consolidateGroup [j, f, w] (x :: xs) = some (consRecordOf q j f w m) := by
  obtain ⟨m, hmax, hmem, hall⟩ := pyMaxBy_maximal dateKey x xs hdate
  exact ⟨m, hmem, hall, by simp [consolidateGroup, hsum, hmax]⟩

/-- Witness for C6 at a concrete two-member group summing to 150. -/
theorem c6_latest_member_fields_witness :
    ∃ m ∈ [rowA, rowB], (∀ y ∈ [rowA, rowB], strOf (dateKey y) ≤ strOf (dateKey m)) ∧
      consolidateGroup [Value.str "J1", Value.str "A", Value.str "WR1"] [rowA, rowB]
        = some (consRecordOf 150 (Value.str "J1") (Value.str "A") (Value.str "WR1") m) :=
  c6_latest_member_fields (Value.str "J1") (Value.str "A") (Value.str "WR1") 150 rowA [rowB]
    (by
      intro r hr
      rcases List.mem_cons.mp hr with rfl | hr2
      · exact ⟨"2024-01-01", by decide⟩
      · rcases List.mem_cons.mp hr2 with rfl | hr3
        · exact ⟨"2024-01-05", by decide⟩
        · exact absurd hr3 (List.not_mem_nil r))
    (by norm_num [sumPromax, rowA, rowB, getD, isTruthy, pyFloat])

/-- C7: a sheet is in the matching set if and only if it is among the
enumerated sheets, its schema was readable, and the reference column set is
a subset of its column set; a sheet whose schema read raised is merely
skipped, leaving the others' membership untouched. -/
theorem c7_matching_sheets_iff (refCols : List String) (sheets : List SheetInfo)
    (s : SheetInfo) :
    s ∈ getMatchingSheets refCols sheets ↔
      s ∈ sheets ∧ ∃ cs, s.schema = some cs ∧ ∀ c ∈ refCols, c ∈ cs := by
  unfold getMatchingSheets
  rw [List.mem_filter]
  constructor
  · rintro ⟨hmem, hp⟩
    refine ⟨hmem, ?_⟩
    cases hsch : s.schema with
    | none => rw [hsch] at hp; simp at hp
    | some cs =>
      rw [hsch] at hp
      exact ⟨cs, rfl, by simpa [List.all_eq_true] using hp⟩
  · rintro ⟨hmem, cs, hsch, hsub⟩
    refine ⟨hmem, ?_⟩
    rw [hsch]
    simpa [List.all_eq_true] using hsub

/-- Witness for C7: a sheet with extra columns still matches. -/
theorem c7_matching_sheets_iff_witness :
    sheetGood ∈ getMatchingSheets ["A", "B"] [sheetGood] :=
  (c7_matching_sheets_iff ["A", "B"] [sheetGood] sheetGood).mpr
    ⟨by decide, ["A", "B", "C"], rfl, by decide⟩

/-- C8: when reading the archive raises (the `Option.none` archive), the
`except` branch returns the empty key set, so deduplication retains every
consolidated record as new and the run continues. -/
theorem c8_archive_failure_all_new (ukc : List String) (cons : List Row) :
    dedupNewRows cons (getArchiveExistingKeys Option.none ukc).1
      (getArchiveExistingKeys Option.none ukc).2 = cons := by
  simp [dedupNewRows, getArchiveExistingKeys]

/-- C9: an empty filtered-row set ends the run as `noRecords` whatever the
archive holds (no archive access can influence it); but against the claim,
an empty new-record set after a successful dedup does not end the run
cleanly: `new_rows` is never assigned and line 386 raises
`UnboundLocalError`, here the run on the spec's worked scenario against an
archive that already holds its Group Key. -/
theorem c9_empty_paths :
    (∀ archive : Option Archive,
      runMain nowWed [Option.none, some []] archive = RunOutcome.noRecords) ∧
    runMain nowWed [some [srcRowJ1]] (some archiveJ1) = RunOutcome.unboundLocalCrash := by
  refine ⟨fun archive => rfl, by decide⟩

/-- C10: in the live write path a cell is emitted for a field exactly when
the value is truthy and the remapped archive column exists; in particular a
`PROMAX` total of exactly 0 produces no `PROMAX` cell. -/
theorem c10_cell_emission (cols : List String) (rec : Row) :
    (∀ n v, (n, v) ∈ buildCells cols rec ↔
      ∃ c, (c, v) ∈ rec ∧ remapArchive c = n ∧ isTruthy v = true ∧ n ∈ cols) ∧
    ("PROMAX", Value.num 0) ∉ buildCells cols rec := by
  have main : ∀ n v, (n, v) ∈ buildCells cols rec ↔
      ∃ c, (c, v) ∈ rec ∧ remapArchive c = n ∧ isTruthy v = true ∧ n ∈ cols := by
    intro n v
    rw [buildCells_eq_filterMap, List.mem_map]
    constructor
    · rintro ⟨⟨c, w⟩, hmem, heq⟩
      rw [List.mem_filter] at hmem
      obtain ⟨hin, hp⟩ := hmem
      obtain ⟨hn, hv⟩ := Prod.mk.injEq .. ▸ heq
      subst hv
      simp only [Bool.and_eq_true, decide_eq_true_eq] at hp
      exact ⟨c, hin, hn, hp.1, hn ▸ hp.2⟩
    · rintro ⟨c, hin, hn, ht, hmemcols⟩
      refine ⟨(c, v), List.mem_filter.mpr ⟨hin, ?_⟩, ?_⟩
      · simp only [Bool.and_eq_true, decide_eq_true_eq]
        exact ⟨ht, hn ▸ hmemcols⟩
      · simp [hn]
  refine ⟨main, fun hcontra => ?_⟩
  obtain ⟨c, _, _, ht, _⟩ := (main _ _).mp hcontra
  simp [isTruthy] at ht

/-- Witness for C10: a zero PROMAX value emits no cell even when the archive
has the column. -/
theorem c10_cell_emission_witness :
    ("PROMAX", Value.num 0) ∉ buildCells ["PROMAX"] [("PROMAX", Value.num 0)] :=
  (c10_cell_emission ["PROMAX"] [("PROMAX", Value.num 0)]).2

end UPR

